import Mathlib

set_option maxHeartbeats 1000000

/-!
Shallow embedding of the saving-plan simulation engine of
`src/saving_plan.py` (class `SavingPlan` and the period generator
`get_all_possible_time_periods`), modelled over explicit lists of dated
price points.  Dataframe columns derived from the `Date` column
(`year`, `month`, `day`, `diff`) are modelled as functions of the date,
window expressions (`max`/`min` `over ("year", "month")`) as explicit
group computations over the list, and filters as `List.filter`.
-/

/-- A calendar date, as the (year, month, day) triple that the engine
extracts from the `Date` column. -/
structure Date where
  year : Nat
  month : Nat
  day : Nat
deriving DecidableEq, Repr

/-- Lexicographic order on dates, matching comparison of the `Date` column. -/
def dateLe (a b : Date) : Prop :=
  a.year < b.year ∨ (a.year = b.year ∧ (a.month < b.month ∨ (a.month = b.month ∧ a.day ≤ b.day)))

/-- Strict lexicographic order on dates. -/
def dateLt (a b : Date) : Prop :=
  a.year < b.year ∨ (a.year = b.year ∧ (a.month < b.month ∨ (a.month = b.month ∧ a.day < b.day)))

instance (a b : Date) : Decidable (dateLe a b) := by
  unfold dateLe; exact inferInstance

instance (a b : Date) : Decidable (dateLt a b) := by
  unfold dateLt; exact inferInstance

theorem dateLe_refl (a : Date) : dateLe a a := by
  unfold dateLe; omega

theorem dateLe_trans {a b c : Date} (h1 : dateLe a b) (h2 : dateLe b c) : dateLe a c := by
  unfold dateLe at h1 h2 ⊢; omega

theorem dateLe_total (a b : Date) : dateLe a b ∨ dateLe b a := by
  unfold dateLe; omega

theorem dateLe_antisymm {a b : Date} (h1 : dateLe a b) (h2 : dateLe b a) : a = b := by
  cases a; cases b; unfold dateLe at h1 h2
  simp only [Date.mk.injEq]
  simp only at h1 h2
  omega

theorem dateLt_ne {a b : Date} (h : dateLt a b) : a ≠ b := by
  intro he; subst he; unfold dateLt at h; omega

theorem dateLt_le {a b : Date} (h : dateLt a b) : dateLe a b := by
  unfold dateLt at h; unfold dateLe; omega

/-- A row of the input price dataframe: a date and a close price. -/
structure PricePoint where
  date : Date
  close : ℚ
deriving DecidableEq, Repr

/-- Smaller of two dates. -/
def dateMin (a b : Date) : Date := if dateLe a b then a else b

/-- Larger of two dates. -/
def dateMax (a b : Date) : Date := if dateLe a b then b else a

/-- `pl.col("Date").min()` over the frame: `none` on an empty frame (null). -/
def minDate? : List PricePoint → Option Date
  | [] => none
  | p :: rest =>
    match minDate? rest with
    | none => some p.date
    | some q => some (dateMin p.date q)

/-- `pl.col("Date").max()` over the frame: `none` on an empty frame (null). -/
def maxDate? : List PricePoint → Option Date
  | [] => none
  | p :: rest =>
    match maxDate? rest with
    | none => some p.date
    | some q => some (dateMax p.date q)

/-- `SavingPlan.__init__` period filter:
`df.filter(pl.col("Date").is_between(pl.lit(period[0]), pl.lit(period[1])))`,
inclusive on both ends. -/
def filterPeriod (p1 p2 : Date) (df : List PricePoint) : List PricePoint :=
  df.filter (fun x => decide (dateLe p1 x.date) && decide (dateLe x.date p2))

/-- `SavingPlan.drop_last_month_if_needed`: a row is dropped iff
`day_to_invest > (col "Date").max().dt.day()` (the day-of-month of the
latest date of the whole frame) and the row's month and year equal the
month and year of `period[1]`. -/
def drop_last_month_if_needed (d : Nat) (p2 : Date) (df : List PricePoint) : List PricePoint :=
  match maxDate? df with
  | none => df
  | some md =>
    df.filter (fun x =>
      !(decide (md.day < d) && (x.date.month == p2.month) && (x.date.year == p2.year)))

/-- `SavingPlan.get_diff`: the `diff` column, `day - day_to_invest`. -/
def get_diff (d : Nat) (p : PricePoint) : Int :=
  (p.date.day : Int) - (d : Int)

/-- Membership of a row in the (year, month) group used by the window
expressions `over ("year", "month")`. -/
def sameYM (y m : Nat) (p : PricePoint) : Bool :=
  p.date.year == y && p.date.month == m

/-- Fold computing the maximum of the `day` column over a list of rows. -/
def dayMaxList (l : List PricePoint) : Nat :=
  l.foldr (fun p acc => if p.date.day ≤ acc then acc else p.date.day) 0

/-- `pl.col("day").max().over("year", "month")`: the largest day-of-month
among the rows of the frame in the given (year, month) group. -/
def groupMaxDay (df : List PricePoint) (y m : Nat) : Nat :=
  dayMaxList (df.filter (sameYM y m))

/-- Minimum of a list of naturals, `none` on the empty list. -/
def natMin? : List Nat → Option Nat
  | [] => none
  | n :: ns =>
    match natMin? ns with
    | none => some n
    | some m => some (if n ≤ m then n else m)

/-- `pl.col("diff").abs().min().over("year", "month")`: the smallest
absolute `diff` among the rows of the frame in the given (year, month)
group. -/
def groupMinAbsDiff (d : Nat) (df : List PricePoint) (y m : Nat) : Option Nat :=
  natMin? ((df.filter (sameYM y m)).map (fun p => (get_diff d p).natAbs))

/-- The branch filter of `SavingPlan.get_filtered_df`:
`pl.when(day_to_invest < max(day) over (year, month)).then(diff >= 0).otherwise(diff <= 0)`. -/
def branch_keep (d : Nat) (df : List PricePoint) (p : PricePoint) : Bool :=
  if d < groupMaxDay df p.date.year p.date.month then
    decide (0 ≤ get_diff d p)
  else
    decide (get_diff d p ≤ 0)

/-- `SavingPlan.get_filtered_df`: the branch filter, then the filter that
keeps rows whose `|diff|` equals the group minimum `|diff|`, the minimum
being taken over the already branch-filtered frame. -/
def get_filtered_df (d : Nat) (df : List PricePoint) : List PricePoint :=
  let f1 := df.filter (branch_keep d df)
  f1.filter (fun p =>
    groupMinAbsDiff d f1 p.date.year p.date.month == some (get_diff d p).natAbs)

/-- A row of `SavingPlan.result_df` (columns kept after the drop and the
`add_*` stages; `pct_chg` is null on the first row). -/
structure ResultRow where
  date : Date
  close : ℚ
  bought_stocks : ℚ
  all_stocks : ℚ
  total_worth : ℚ
  day_to_invest : Nat
  pct_chg : Option ℚ
deriving DecidableEq, Repr

/-- Accumulating pass realizing `add_bought_stocks`, `add_all_stocks`
(`pl.cum_sum` in row order), `add_total_worth`, `add_day_to_invest` and
`add_pct_chg`: `acc` is the running sum of `bought_stocks`, `prev` the
previous row's close. -/
def resultRowsGo (A : ℚ) (d : Nat) : ℚ → Option ℚ → List PricePoint → List ResultRow
  | _, _, [] => []
  | acc, prev, p :: rest =>
    { date := p.date
      close := p.close
      bought_stocks := A / p.close
      all_stocks := acc + A / p.close
      total_worth := (acc + A / p.close) * p.close
      day_to_invest := d
      pct_chg := prev.map (fun c => (p.close - c) / c * 100) } ::
      resultRowsGo A d (acc + A / p.close) (some p.close) rest

/-- The value-adding tail of `SavingPlan.get_result_df`, applied to the
selected purchase rows. -/
def result_rows (A : ℚ) (d : Nat) (ps : List PricePoint) : List ResultRow :=
  resultRowsGo A d 0 none ps

/-- `SavingPlan.get_result_df` for an explicit period: period filter,
date decomposition, `drop_last_month_if_needed`, `diff`,
`get_filtered_df`, then the accumulation columns
(`drop_first_month_if_needed` is commented out in the source). -/
def saving_result (A : ℚ) (d : Nat) (p1 p2 : Date) (raw : List PricePoint) : List ResultRow :=
  result_rows A d (get_filtered_df d (drop_last_month_if_needed d p2 (filterPeriod p1 p2 raw)))

/-- Insertion step of the date sort used by `get_total_worth`. -/
def insertByDate (r : ResultRow) : List ResultRow → List ResultRow
  | [] => [r]
  | x :: xs => if dateLe r.date x.date then r :: x :: xs else x :: insertByDate r xs

/-- Sort of the result rows by the `Date` column (`.sort("Date")`). -/
def sortByDate : List ResultRow → List ResultRow
  | [] => []
  | x :: xs => insertByDate x (sortByDate xs)

/-- `SavingPlan.get_total_worth` without the failure mode:
`result_df.sort("Date").select("total_worth")` and the last element;
`none` models the out-of-bounds crash of `collect()[-1]` on an empty
frame. -/
def get_total_worth? (rows : List ResultRow) : Option ℚ :=
  (sortByDate rows).getLast?.map (fun r => r.total_worth)

/-- The scalar `total_worth` of a run with an explicit period. -/
def total_worth_scalar (A : ℚ) (d : Nat) (p1 p2 : Date) (raw : List PricePoint) : Option ℚ :=
  get_total_worth? (saving_result A d p1 p2 raw)

/-- Runtime failures the Python code can actually raise on the paths
modelled here. -/
inductive PyError where
  | assertionError
  | outOfBounds
  | dtypeError
deriving DecidableEq, Repr

/-- The `period` constructor argument:
`Union[str, Tuple[datetime, datetime]]`. -/
inductive PeriodArg where
  | str (s : String)
  | range (p1 p2 : Date)
deriving DecidableEq, Repr

/-- `SavingPlan.__init__`: a string period must equal "max" (assert) and
leaves the frame unfiltered; a tuple period filters the frame to the
inclusive range. -/
def init_df (raw : List PricePoint) : PeriodArg → Except PyError (List PricePoint)
  | .str s => if s = "max" then .ok raw else .error .assertionError
  | .range p1 p2 => .ok (filterPeriod p1 p2 raw)

/-- `SavingPlan.get_prepared_df` with the failure mode of
`drop_last_month_if_needed`: for a string period, `self.period[1]` is the
character at index 1 of the string (for "max" the character sequence "a")
and `pl.lit(self.period[1]).dt.month()` fails at collection with a dtype
error, since `.dt` operations are not defined on string literals. -/
def get_prepared_dfE (d : Nat) (pa : PeriodArg) (df : List PricePoint) :
    Except PyError (List PricePoint) :=
  match pa with
  | .str _ => .error .dtypeError
  | .range _ p2 => .ok (drop_last_month_if_needed d p2 df)

/-- End-to-end `SavingPlan.total_worth` with the failure modes of the
source: the constructor assert, the dtype error on a string period, and
the out-of-bounds crash of `collect()[-1]` when no purchase row exists. -/
def get_total_worthE (A : ℚ) (d : Nat) (pa : PeriodArg) (raw : List PricePoint) :
    Except PyError ℚ := do
  let df0 ← init_df raw pa
  let dfP ← get_prepared_dfE d pa df0
  match get_total_worth? (result_rows A d (get_filtered_df d dfP)) with
  | none => .error .outOfBounds
  | some v => .ok v

/-- The mutable caching state of one `SavingPlan` instance:
`_total_worth` and `_result_df`, both initialized to `None`. -/
structure PlanState where
  tw_cache : Option ℚ
  df_cache : Option (List ResultRow)
deriving DecidableEq, Repr

/-- `PlanState` of a freshly constructed instance. -/
def initialPlanState : PlanState := ⟨none, none⟩

/-- The `result_df` property: if `_result_df` is `None` it is assigned
`get_result_df()`, and then `get_result_df()` is returned again (the
source returns a fresh computation, not the cached field).  `compute` is
the value of the pure computation `get_result_df()`; the returned
natural number counts how many times `get_result_df` runs during this
access. -/
def result_df_access (compute : List ResultRow) (s : PlanState) :
    List ResultRow × PlanState × Nat :=
  match s.df_cache with
  | none => (compute, { s with df_cache := some compute }, 2)
  | some _ => (compute, s, 1)

/-- The `total_worth` property: if `_total_worth` is `None` it is
assigned `get_total_worth()` and the cached field is returned.
`compute` is the value of the pure computation `get_total_worth()`; the
returned natural number counts how many times `get_total_worth` runs
during this access. -/
def total_worth_access (compute : ℚ) (s : PlanState) : ℚ × PlanState × Nat :=
  match s.tw_cache with
  | none => (compute, { s with tw_cache := some compute }, 1)
  | some v => (v, s, 0)

/-- `get_last_day_of_month`: `calendar.monthrange(year, month)[1]`,
the Gregorian month-length table with the standard leap-year rule. -/
def get_last_day_of_month (y m : Nat) : Nat :=
  if m = 2 then
    (if (y % 4 = 0 && y % 100 != 0) || y % 400 = 0 then 29 else 28)
  else if m = 4 || m = 6 || m = 9 || m = 11 then 30
  else 31

/-- The inner month loop of `get_all_possible_time_periods` for one year
`y`: months 1..12, skipping months before the first month in the first
year and after the last month in the last year. -/
def monthsOfYear (minY minM maxY maxM y : Nat) : List (Nat × Nat) :=
  (List.range' 1 12).filterMap (fun m =>
    if y = minY ∧ m < minM then none
    else if y = maxY ∧ maxM < m then none
    else some (y, m))

/-- `all_year_month` of `get_all_possible_time_periods`: every
(year, month) pair between the first and the last month of the data. -/
def allYearMonth (minY minM maxY maxM : Nat) : List (Nat × Nat) :=
  (List.range' minY (maxY + 1 - minY)).flatMap (monthsOfYear minY minM maxY maxM)

/-- Python list slicing `l[::step]` for `step ≥ 1`: every `step`-th
element starting from the first. -/
def everyNth (step : Nat) : List α → List α
  | [] => []
  | a :: rest => a :: everyNth step (rest.drop (step - 1))
termination_by l => l.length
decreasing_by
  simp only [List.length_drop]
  simp only [List.length_cons]
  omega

/-- The month distance `(end.year - start.year) * 12 + end.month - start.month`. -/
def monthDist (s e : Nat × Nat) : Int :=
  ((e.1 : Int) - (s.1 : Int)) * 12 + (e.2 : Int) - (s.2 : Int)

/-- The window emitted for a retained (start, end) pair: first day of the
start month to the last calendar day of the end month. -/
def windowOf (s e : Nat × Nat) : Date × Date :=
  (⟨s.1, s.2, 1⟩, ⟨e.1, e.2, get_last_day_of_month e.1 e.2⟩)

/-- `get_all_possible_time_periods`: subsample the (year, month) list by
every `step`-th entry for starts and for ends, keep the pairs whose
month distance is at least `12 * min_length` months (the source compares
`length / 12 < min_length` in floating point; for integer `length` and
`min_length` this agrees exactly with `length < 12 * min_length`), and
emit the first-day/last-day window for each.  Empty data would crash in
Python (`None.year`); it yields `[]` here and is excluded by hypothesis
in every theorem below. -/
def get_all_possible_time_periods (df : List PricePoint) (min_length step : Nat) :
    List (Date × Date) :=
  match minDate? df, maxDate? df with
  | some lo, some hi =>
    (everyNth step (allYearMonth lo.year lo.month hi.year hi.month)).flatMap (fun s =>
      (everyNth step (allYearMonth lo.year lo.month hi.year hi.month)).filterMap (fun e =>
        if monthDist s e < 12 * (min_length : Int) then none
        else some (windowOf s e)))
  | _, _ => []

theorem Date.ext2 {a b : Date} (hy : a.year = b.year) (hm : a.month = b.month)
    (hd : a.day = b.day) : a = b := by
  cases a; cases b; simp_all

theorem natMin?_mem {l : List Nat} {n : Nat} (h : natMin? l = some n) : n ∈ l := by
  induction l with
  | nil => simp [natMin?] at h
  | cons a as ih =>
    cases hm : natMin? as with
    | none =>
      simp [natMin?, hm] at h
      simp [h]
    | some m =>
      simp only [natMin?, hm, Option.some.injEq] at h
      split at h
      · subst h; exact List.mem_cons_self a as
      · subst h; exact List.mem_cons_of_mem _ (ih hm)

theorem natMin?_le {l : List Nat} {n : Nat} (h : natMin? l = some n) :
    ∀ x ∈ l, n ≤ x := by
  induction l generalizing n with
  | nil => simp [natMin?] at h
  | cons a as ih =>
    intro x hx
    cases hm : natMin? as with
    | none =>
      have : as = [] := by
        cases as with
        | nil => rfl
        | cons b bs => cases hb : natMin? bs <;> simp [natMin?, hb] at hm
      subst this
      simp [natMin?] at h
      simp at hx
      omega
    | some m =>
      simp only [natMin?, hm, Option.some.injEq] at h
      split at h
      all_goals rcases List.mem_cons.mp hx with hxa | hxs
      · subst hxa; omega
      · have := ih hm x hxs; omega
      · subst hxa; omega
      · have := ih hm x hxs; omega

theorem natMin?_isSome {l : List Nat} (h : l ≠ []) : ∃ n, natMin? l = some n := by
  cases l with
  | nil => exact absurd rfl h
  | cons a as =>
    cases hm : natMin? as with
    | none => exact ⟨a, by simp [natMin?, hm]⟩
    | some m => exact ⟨if a ≤ m then a else m, by simp [natMin?, hm]⟩

theorem dayMaxList_ge {l : List PricePoint} {p : PricePoint} (h : p ∈ l) :
    p.date.day ≤ dayMaxList l := by
  induction l with
  | nil => simp at h
  | cons a as ih =>
    have hmax : dayMaxList (a :: as) =
        if a.date.day ≤ dayMaxList as then dayMaxList as else a.date.day := rfl
    rw [hmax]
    rcases List.mem_cons.mp h with ha | has
    · subst ha; split <;> omega
    · have := ih has; split <;> omega

theorem dayMaxList_attained {l : List PricePoint} (h : l ≠ []) :
    ∃ p ∈ l, p.date.day = dayMaxList l := by
  induction l with
  | nil => exact absurd rfl h
  | cons a as ih =>
    have hc : dayMaxList (a :: as) =
        if a.date.day ≤ dayMaxList as then dayMaxList as else a.date.day := rfl
    cases as with
    | nil =>
      refine ⟨a, List.mem_cons_self _ _, ?_⟩
      simp only [dayMaxList, List.foldr]
      split <;> omega
    | cons b bs =>
      obtain ⟨q, hq, hqd⟩ := ih (by simp)
      by_cases hcmp : a.date.day ≤ dayMaxList (b :: bs)
      · exact ⟨q, List.mem_cons_of_mem _ hq, by rw [hc]; split <;> omega⟩
      · exact ⟨a, List.mem_cons_self _ _, by rw [hc]; split <;> omega⟩

theorem dateMax_le_left (a b : Date) : dateLe a (dateMax a b) := by
  unfold dateMax
  split
  · assumption
  · exact dateLe_refl a

theorem dateMax_le_right (a b : Date) : dateLe b (dateMax a b) := by
  unfold dateMax
  split
  · exact dateLe_refl b
  · rcases dateLe_total a b with h | h
    · exact absurd h (by assumption)
    · exact h

theorem dateMax_cases (a b : Date) : dateMax a b = a ∨ dateMax a b = b := by
  unfold dateMax; split
  · exact Or.inr rfl
  · exact Or.inl rfl

theorem maxDate?_ge {df : List PricePoint} {md : Date} (h : maxDate? df = some md) :
    ∀ p ∈ df, dateLe p.date md := by
  induction df generalizing md with
  | nil => simp [maxDate?] at h
  | cons a as ih =>
    intro p hp
    cases hm : maxDate? as with
    | none =>
      have hasnil : as = [] := by
        cases as with
        | nil => rfl
        | cons b bs => cases hb : maxDate? bs <;> simp [maxDate?, hb] at hm
      subst hasnil
      simp [maxDate?] at h
      simp at hp
      subst hp; subst h; exact dateLe_refl _
    | some q =>
      simp only [maxDate?, hm, Option.some.injEq] at h
      subst h
      rcases List.mem_cons.mp hp with hpa | hps
      · subst hpa; exact dateMax_le_left _ _
      · exact dateLe_trans (ih hm p hps) (dateMax_le_right _ _)

theorem maxDate?_mem {df : List PricePoint} {md : Date} (h : maxDate? df = some md) :
    ∃ p ∈ df, p.date = md := by
  induction df generalizing md with
  | nil => simp [maxDate?] at h
  | cons a as ih =>
    cases hm : maxDate? as with
    | none =>
      simp only [maxDate?, hm, Option.some.injEq] at h
      exact ⟨a, List.mem_cons_self _ _, h⟩
    | some q =>
      simp only [maxDate?, hm, Option.some.injEq] at h
      rcases dateMax_cases a.date q with hc | hc
      · exact ⟨a, List.mem_cons_self _ _, by rw [← h, hc]⟩
      · obtain ⟨p, hp, hpd⟩ := ih hm
        exact ⟨p, List.mem_cons_of_mem _ hp, by rw [← h, hc, hpd]⟩

theorem maxDate?_isSome {df : List PricePoint} (h : df ≠ []) :
    ∃ md, maxDate? df = some md := by
  cases df with
  | nil => exact absurd rfl h
  | cons a as =>
    cases hm : maxDate? as with
    | none => exact ⟨a.date, by simp [maxDate?, hm]⟩
    | some q => exact ⟨dateMax a.date q, by simp [maxDate?, hm]⟩

theorem dateMin_le_left (a b : Date) : dateLe (dateMin a b) a := by
  unfold dateMin
  split
  · exact dateLe_refl a
  · rcases dateLe_total a b with h | h
    · exact absurd h (by assumption)
    · exact h

theorem dateMin_le_right (a b : Date) : dateLe (dateMin a b) b := by
  unfold dateMin
  split
  · assumption
  · exact dateLe_refl b

theorem dateMin_cases (a b : Date) : dateMin a b = a ∨ dateMin a b = b := by
  unfold dateMin; split
  · exact Or.inl rfl
  · exact Or.inr rfl

theorem minDate?_le {df : List PricePoint} {lo : Date} (h : minDate? df = some lo) :
    ∀ p ∈ df, dateLe lo p.date := by
  induction df generalizing lo with
  | nil => simp [minDate?] at h
  | cons a as ih =>
    intro p hp
    cases hm : minDate? as with
    | none =>
      have hasnil : as = [] := by
        cases as with
        | nil => rfl
        | cons b bs => cases hb : minDate? bs <;> simp [minDate?, hb] at hm
      subst hasnil
      simp [minDate?] at h
      simp at hp
      subst hp; subst h; exact dateLe_refl _
    | some q =>
      simp only [minDate?, hm, Option.some.injEq] at h
      subst h
      rcases List.mem_cons.mp hp with hpa | hps
      · subst hpa; exact dateMin_le_left _ _
      · exact dateLe_trans (dateMin_le_right _ _) (ih hm p hps)

theorem minDate?_mem {df : List PricePoint} {lo : Date} (h : minDate? df = some lo) :
    ∃ p ∈ df, p.date = lo := by
  induction df generalizing lo with
  | nil => simp [minDate?] at h
  | cons a as ih =>
    cases hm : minDate? as with
    | none =>
      simp only [minDate?, hm, Option.some.injEq] at h
      exact ⟨a, List.mem_cons_self _ _, h⟩
    | some q =>
      simp only [minDate?, hm, Option.some.injEq] at h
      rcases dateMin_cases a.date q with hc | hc
      · exact ⟨a, List.mem_cons_self _ _, by rw [← h, hc]⟩
      · obtain ⟨p, hp, hpd⟩ := ih hm
        exact ⟨p, List.mem_cons_of_mem _ hp, by rw [← h, hc, hpd]⟩

theorem sameYM_iff {y m : Nat} {p : PricePoint} :
    sameYM y m p = true ↔ p.date.year = y ∧ p.date.month = m := by
  simp [sameYM]

theorem mem_filterPeriod {p1 p2 : Date} {df : List PricePoint} {x : PricePoint} :
    x ∈ filterPeriod p1 p2 df ↔ x ∈ df ∧ dateLe p1 x.date ∧ dateLe x.date p2 := by
  simp [filterPeriod, List.mem_filter]

theorem mem_get_filtered_df {d : Nat} {df : List PricePoint} {p : PricePoint} :
    p ∈ get_filtered_df d df ↔
      p ∈ df ∧ branch_keep d df p = true ∧
        groupMinAbsDiff d (df.filter (branch_keep d df)) p.date.year p.date.month =
          some (get_diff d p).natAbs := by
  simp only [get_filtered_df, List.mem_filter, beq_iff_eq]
  constructor
  · rintro ⟨⟨h1, h2⟩, h3⟩; exact ⟨h1, h2, h3⟩
  · rintro ⟨h1, h2, h3⟩; exact ⟨⟨h1, h2⟩, h3⟩

theorem mem_filter_sameYM {df : List PricePoint} {y m : Nat} {p : PricePoint} :
    p ∈ df.filter (sameYM y m) ↔ p ∈ df ∧ p.date.year = y ∧ p.date.month = m := by
  simp [List.mem_filter, sameYM]

theorem eq_of_mem_of_date_eq {df : List PricePoint}
    (hnd : df.Pairwise (fun p q => p.date ≠ q.date)) :
    ∀ {a b : PricePoint}, a ∈ df → b ∈ df → a.date = b.date → a = b := by
  induction df with
  | nil => intro a b ha _ _; simp at ha
  | cons x xs ih =>
    intro a b ha hb hd
    rw [List.pairwise_cons] at hnd
    obtain ⟨hx, hxs⟩ := hnd
    rcases List.mem_cons.mp ha with ha1 | ha2 <;> rcases List.mem_cons.mp hb with hb1 | hb2
    · rw [ha1, hb1]
    · subst ha1; exact absurd hd (hx b hb2)
    · subst hb1; exact absurd hd.symm (hx a ha2)
    · exact ih hxs ha2 hb2 hd

theorem filtered_unique {d : Nat} {df : List PricePoint}
    (hnd : df.Pairwise (fun p q => p.date ≠ q.date))
    {z1 z2 : PricePoint} (h1 : z1 ∈ get_filtered_df d df) (h2 : z2 ∈ get_filtered_df d df)
    (hy : z1.date.year = z2.date.year) (hm : z1.date.month = z2.date.month) : z1 = z2 := by
  rw [mem_get_filtered_df] at h1 h2
  obtain ⟨hz1, hb1, hm1⟩ := h1
  obtain ⟨hz2, hb2, hm2⟩ := h2
  rw [hy, hm] at hm1
  rw [hm1] at hm2
  have habs : (get_diff d z1).natAbs = (get_diff d z2).natAbs := by
    simpa using hm2
  unfold branch_keep at hb1 hb2
  rw [hy, hm] at hb1
  have hdate : z1.date.day = z2.date.day := by
    by_cases hc : d < groupMaxDay df z2.date.year z2.date.month
    · rw [if_pos hc] at hb1 hb2
      simp only [decide_eq_true_eq] at hb1 hb2
      unfold get_diff at habs hb1 hb2
      omega
    · rw [if_neg hc] at hb1 hb2
      simp only [decide_eq_true_eq] at hb1 hb2
      unfold get_diff at habs hb1 hb2
      omega
  exact eq_of_mem_of_date_eq hnd hz1 hz2 (Date.ext2 hy hm hdate)

theorem filtered_exists_of_group {d : Nat} {df : List PricePoint} {x : PricePoint}
    (hx : x ∈ df) :
    ∃ w ∈ get_filtered_df d df,
      w.date.year = x.date.year ∧ w.date.month = x.date.month := by
  have hxG : x ∈ df.filter (sameYM x.date.year x.date.month) :=
    mem_filter_sameYM.mpr ⟨hx, rfl, rfl⟩
  have hxday : x.date.day ≤ groupMaxDay df x.date.year x.date.month := dayMaxList_ge hxG
  have hne : ∃ g, g ∈ df.filter (branch_keep d df) ∧
      g.date.year = x.date.year ∧ g.date.month = x.date.month := by
    by_cases hc : d < groupMaxDay df x.date.year x.date.month
    · obtain ⟨w0, hw0G, hw0d⟩ := dayMaxList_attained (List.ne_nil_of_mem hxG)
      obtain ⟨hw0df, hw0y, hw0m⟩ := mem_filter_sameYM.mp hw0G
      refine ⟨w0, List.mem_filter.mpr ⟨hw0df, ?_⟩, hw0y, hw0m⟩
      unfold branch_keep
      rw [hw0y, hw0m, if_pos hc]
      have : w0.date.day = groupMaxDay df x.date.year x.date.month := hw0d
      simp only [decide_eq_true_eq]
      unfold get_diff
      omega
    · refine ⟨x, List.mem_filter.mpr ⟨hx, ?_⟩, rfl, rfl⟩
      unfold branch_keep
      rw [if_neg hc]
      simp only [decide_eq_true_eq]
      unfold get_diff
      omega
  obtain ⟨g, hg1, hgy, hgm⟩ := hne
  have hgG1 : g ∈ (df.filter (branch_keep d df)).filter (sameYM x.date.year x.date.month) :=
    mem_filter_sameYM.mpr ⟨hg1, hgy, hgm⟩
  obtain ⟨n, hn⟩ := natMin?_isSome
    (List.ne_nil_of_mem (List.mem_map_of_mem (fun p => (get_diff d p).natAbs) hgG1))
  have hnmem := natMin?_mem hn
  obtain ⟨w, hwG1, hwabs⟩ := List.mem_map.mp hnmem
  obtain ⟨hwf1, hwy, hwm⟩ := mem_filter_sameYM.mp hwG1
  obtain ⟨hwdf, hwb⟩ := List.mem_filter.mp hwf1
  refine ⟨w, mem_get_filtered_df.mpr ⟨hwdf, hwb, ?_⟩, hwy, hwm⟩
  rw [hwy, hwm]
  unfold groupMinAbsDiff
  rw [hn, hwabs]

theorem filtered_mem_of_day_eq {d : Nat} {df : List PricePoint} {x : PricePoint}
    (hx : x ∈ df) (hd : x.date.day = d) : x ∈ get_filtered_df d df := by
  have hdiff : get_diff d x = 0 := by unfold get_diff; omega
  have hb : branch_keep d df x = true := by
    unfold branch_keep
    split <;> simp [hdiff]
  have hxf1 : x ∈ df.filter (branch_keep d df) := List.mem_filter.mpr ⟨hx, hb⟩
  have hxG1 : x ∈ (df.filter (branch_keep d df)).filter (sameYM x.date.year x.date.month) :=
    mem_filter_sameYM.mpr ⟨hxf1, rfl, rfl⟩
  have h0 : (0 : Nat) ∈
      ((df.filter (branch_keep d df)).filter (sameYM x.date.year x.date.month)).map
        (fun p => (get_diff d p).natAbs) := by
    refine List.mem_map.mpr ⟨x, hxG1, ?_⟩
    rw [hdiff]; rfl
  obtain ⟨n, hn⟩ := natMin?_isSome (List.ne_nil_of_mem h0)
  have hle : n ≤ 0 := natMin?_le hn 0 h0
  refine mem_get_filtered_df.mpr ⟨hx, hb, ?_⟩
  unfold groupMinAbsDiff
  rw [hn, hdiff]
  simp
  omega

theorem group_filter_branch_eq {d : Nat} {df : List PricePoint} {y m : Nat}
    (hall : ∀ g ∈ df.filter (sameYM y m), branch_keep d df g = true) :
    (df.filter (branch_keep d df)).filter (sameYM y m) = df.filter (sameYM y m) := by
  rw [List.filter_filter]
  apply List.filter_congr
  intro a ha
  cases hsm : sameYM y m a with
  | false => simp [hsm]
  | true =>
    have hmem : a ∈ df.filter (sameYM y m) := List.mem_filter.mpr ⟨ha, hsm⟩
    simp [hsm, hall a hmem]

theorem filtered_last_day {d : Nat} {df : List PricePoint} {x : PricePoint}
    (hx : x ∈ df) (hled : groupMaxDay df x.date.year x.date.month ≤ d) :
    ∃ w ∈ get_filtered_df d df,
      w.date.year = x.date.year ∧ w.date.month = x.date.month ∧
        w.date.day = groupMaxDay df x.date.year x.date.month := by
  have hxG : x ∈ df.filter (sameYM x.date.year x.date.month) :=
    mem_filter_sameYM.mpr ⟨hx, rfl, rfl⟩
  obtain ⟨w0, hw0G, hw0d⟩ := dayMaxList_attained (List.ne_nil_of_mem hxG)
  obtain ⟨hw0df, hw0y, hw0m⟩ := mem_filter_sameYM.mp hw0G
  have hbranch : ∀ g ∈ df.filter (sameYM x.date.year x.date.month),
      branch_keep d df g = true := by
    intro g hgG
    obtain ⟨hgdf, hgy, hgm⟩ := mem_filter_sameYM.mp hgG
    have hgday : g.date.day ≤ groupMaxDay df x.date.year x.date.month := dayMaxList_ge hgG
    unfold branch_keep
    rw [hgy, hgm, if_neg (by omega)]
    simp only [decide_eq_true_eq]
    unfold get_diff
    omega
  have hGeq := group_filter_branch_eq (d := d) hbranch
  have hw0G1 : w0 ∈ (df.filter (branch_keep d df)).filter (sameYM x.date.year x.date.month) := by
    rw [hGeq]; exact hw0G
  obtain ⟨n, hn⟩ := natMin?_isSome
    (List.ne_nil_of_mem (List.mem_map_of_mem (fun p => (get_diff d p).natAbs) hw0G1))
  have hnmem := natMin?_mem hn
  obtain ⟨z, hzG1, hzabs⟩ := List.mem_map.mp hnmem
  rw [hGeq] at hzG1
  have hzday : z.date.day ≤ groupMaxDay df x.date.year x.date.month := dayMaxList_ge hzG1
  have hle : n ≤ (get_diff d w0).natAbs :=
    natMin?_le hn _ (List.mem_map.mpr ⟨w0, hw0G1, rfl⟩)
  have hw0day : w0.date.day = groupMaxDay df x.date.year x.date.month := hw0d
  have hval : n = d - groupMaxDay df x.date.year x.date.month := by
    unfold get_diff at hle hzabs
    omega
  refine ⟨w0, mem_get_filtered_df.mpr ⟨hw0df, hbranch w0 hw0G, ?_⟩, hw0y, hw0m, hw0d⟩
  rw [hw0y, hw0m]
  unfold groupMinAbsDiff
  rw [hn]
  unfold get_diff
  congr 1
  omega

theorem filtered_first_day {d : Nat} {df : List PricePoint} {x : PricePoint}
    (hx : x ∈ df)
    (hmin : ∀ z ∈ df, z.date.year = x.date.year → z.date.month = x.date.month →
      x.date.day ≤ z.date.day)
    (hgt : d < x.date.day) :
    x ∈ get_filtered_df d df ∧
      ∀ z ∈ get_filtered_df d df, z.date.year = x.date.year → z.date.month = x.date.month →
        z.date.day = x.date.day := by
  have hxG : x ∈ df.filter (sameYM x.date.year x.date.month) :=
    mem_filter_sameYM.mpr ⟨hx, rfl, rfl⟩
  have hM : x.date.day ≤ groupMaxDay df x.date.year x.date.month := dayMaxList_ge hxG
  have hc : d < groupMaxDay df x.date.year x.date.month := by omega
  have hbranch : ∀ g ∈ df.filter (sameYM x.date.year x.date.month),
      branch_keep d df g = true := by
    intro g hgG
    obtain ⟨hgdf, hgy, hgm⟩ := mem_filter_sameYM.mp hgG
    have := hmin g hgdf hgy hgm
    unfold branch_keep
    rw [hgy, hgm, if_pos hc]
    simp only [decide_eq_true_eq]
    unfold get_diff
    omega
  have hGeq := group_filter_branch_eq (d := d) hbranch
  have hxG1 : x ∈ (df.filter (branch_keep d df)).filter (sameYM x.date.year x.date.month) := by
    rw [hGeq]; exact hxG
  obtain ⟨n, hn⟩ := natMin?_isSome
    (List.ne_nil_of_mem (List.mem_map_of_mem (fun p => (get_diff d p).natAbs) hxG1))
  have hnmem := natMin?_mem hn
  obtain ⟨z0, hz0G1, hz0abs⟩ := List.mem_map.mp hnmem
  rw [hGeq] at hz0G1
  obtain ⟨hz0df, hz0y, hz0m⟩ := mem_filter_sameYM.mp hz0G1
  have hz0day := hmin z0 hz0df hz0y hz0m
  have hle : n ≤ (get_diff d x).natAbs := natMin?_le hn _ (List.mem_map.mpr ⟨x, hxG1, rfl⟩)
  have hval : n = x.date.day - d := by
    unfold get_diff at hle hz0abs
    omega
  have hbx := hbranch x hxG
  have hxmem : x ∈ get_filtered_df d df := by
    refine mem_get_filtered_df.mpr ⟨hx, hbx, ?_⟩
    unfold groupMinAbsDiff
    rw [hn]
    unfold get_diff
    congr 1
    omega
  refine ⟨hxmem, ?_⟩
  intro z hz hzy hzm
  rw [mem_get_filtered_df] at hz
  obtain ⟨hzdf, hzb, hzmin⟩ := hz
  rw [hzy, hzm] at hzmin
  unfold groupMinAbsDiff at hzmin
  rw [hn] at hzmin
  have habs : (get_diff d z).natAbs = n := by simpa using hzmin.symm
  unfold branch_keep at hzb
  rw [hzy, hzm, if_pos hc] at hzb
  simp only [decide_eq_true_eq] at hzb
  unfold get_diff at habs hzb
  omega

theorem drop_last_sublist (d : Nat) (p2 : Date) (df : List PricePoint) :
    (drop_last_month_if_needed d p2 df).Sublist df := by
  unfold drop_last_month_if_needed
  split
  · exact List.Sublist.refl _
  · exact List.filter_sublist _

theorem get_filtered_sublist (d : Nat) (df : List PricePoint) :
    (get_filtered_df d df).Sublist df :=
  (List.filter_sublist _).trans (List.filter_sublist _)

theorem filterPeriod_sublist (p1 p2 : Date) (df : List PricePoint) :
    (filterPeriod p1 p2 df).Sublist df :=
  List.filter_sublist _

theorem resultRowsGo_length (A : ℚ) (d : Nat) (acc : ℚ) (prev : Option ℚ)
    (ps : List PricePoint) : (resultRowsGo A d acc prev ps).length = ps.length := by
  induction ps generalizing acc prev with
  | nil => rfl
  | cons p rest ih => simp [resultRowsGo, ih]

theorem resultRowsGo_map_date (A : ℚ) (d : Nat) (acc : ℚ) (prev : Option ℚ)
    (ps : List PricePoint) :
    (resultRowsGo A d acc prev ps).map (fun r => r.date) = ps.map (fun p => p.date) := by
  induction ps generalizing acc prev with
  | nil => rfl
  | cons p rest ih => simp [resultRowsGo, ih]

theorem resultRowsGo_map_bought (A : ℚ) (d : Nat) (acc : ℚ) (prev : Option ℚ)
    (ps : List PricePoint) :
    (resultRowsGo A d acc prev ps).map (fun r => r.bought_stocks) =
      ps.map (fun p => A / p.close) := by
  induction ps generalizing acc prev with
  | nil => rfl
  | cons p rest ih => simp [resultRowsGo, ih]

theorem resultRowsGo_get (A : ℚ) (d : Nat) (acc : ℚ) (prev : Option ℚ)
    (ps : List PricePoint) (i : Nat) (hi : i < ps.length)
    (hi2 : i < (resultRowsGo A d acc prev ps).length) :
    ((resultRowsGo A d acc prev ps).get ⟨i, hi2⟩).close = (ps.get ⟨i, hi⟩).close ∧
      ((resultRowsGo A d acc prev ps).get ⟨i, hi2⟩).date = (ps.get ⟨i, hi⟩).date ∧
      ((resultRowsGo A d acc prev ps).get ⟨i, hi2⟩).bought_stocks = A / (ps.get ⟨i, hi⟩).close ∧
      ((resultRowsGo A d acc prev ps).get ⟨i, hi2⟩).all_stocks =
        acc + ((ps.take (i + 1)).map (fun p => A / p.close)).sum ∧
      ((resultRowsGo A d acc prev ps).get ⟨i, hi2⟩).total_worth =
        ((resultRowsGo A d acc prev ps).get ⟨i, hi2⟩).all_stocks *
          ((resultRowsGo A d acc prev ps).get ⟨i, hi2⟩).close := by
  induction ps generalizing acc prev i with
  | nil => simp at hi
  | cons p rest ih =>
    cases i with
    | zero =>
      refine ⟨rfl, rfl, rfl, ?_, rfl⟩
      simp [resultRowsGo]
    | succ j =>
      have hj : j < rest.length := by simpa using hi
      have hj2 : j < (resultRowsGo A d (acc + A / p.close) (some p.close) rest).length := by
        rw [resultRowsGo_length]; exact hj
      obtain ⟨hc, hd2, hb, ha, ht⟩ := ih (acc + A / p.close) (some p.close) j hj hj2
      refine ⟨?_, ?_, ?_, ?_, ?_⟩
      · simpa [resultRowsGo] using hc
      · simpa [resultRowsGo] using hd2
      · simpa [resultRowsGo] using hb
      · have : ((resultRowsGo A d acc prev (p :: rest)).get ⟨j + 1, hi2⟩).all_stocks =
            acc + A / p.close + ((rest.take (j + 1)).map (fun q => A / q.close)).sum := by
          simpa [resultRowsGo] using ha
        rw [this]
        simp only [List.take_succ_cons, List.map_cons, List.sum_cons]
        ring
      · simpa [resultRowsGo] using ht

theorem result_rows_pairwise {A : ℚ} {d : Nat} {ps : List PricePoint}
    (h : ps.Pairwise (fun p q => dateLt p.date q.date)) :
    (result_rows A d ps).Pairwise (fun a b => dateLt a.date b.date) := by
  have h1 : (ps.map (fun p => p.date)).Pairwise dateLt := List.pairwise_map.mpr h
  rw [← resultRowsGo_map_date A d 0 none ps] at h1
  exact List.pairwise_map.mp h1

theorem sortByDate_sorted_id {l : List ResultRow}
    (h : l.Pairwise (fun a b => dateLe a.date b.date)) : sortByDate l = l := by
  induction l with
  | nil => rfl
  | cons x xs ih =>
    rw [List.pairwise_cons] at h
    obtain ⟨hx, hxs⟩ := h
    show insertByDate x (sortByDate xs) = x :: xs
    rw [ih hxs]
    cases xs with
    | nil => rfl
    | cons y ys =>
      unfold insertByDate
      rw [if_pos (hx y (List.mem_cons_self _ _))]

theorem get_total_worth?_sorted {rows : List ResultRow}
    (h : rows.Pairwise (fun a b => dateLe a.date b.date)) (hne : rows ≠ []) :
    get_total_worth? rows = some ((rows.getLast hne).total_worth) := by
  unfold get_total_worth?
  rw [sortByDate_sorted_id h, List.getLast?_eq_getLast rows hne]
  rfl

theorem take_map_sum_succ (f : PricePoint → ℚ) (ps : List PricePoint) (n : Nat)
    (h : n < ps.length) :
    ((ps.take (n + 1)).map f).sum = ((ps.take n).map f).sum + f (ps.get ⟨n, h⟩) := by
  induction ps generalizing n with
  | nil => simp at h
  | cons p rest ih =>
    cases n with
    | zero => simp
    | succ k =>
      have hk : k < rest.length := by simpa using h
      simp only [List.take_succ_cons, List.map_cons, List.sum_cons, List.get_cons_succ]
      rw [ih k hk]
      ring

theorem result_rows_spec (A : ℚ) (d : Nat) (ps : List PricePoint)
    (hpos : ∀ p ∈ ps, 0 < p.close) (hA : 0 < A)
    (hsort : ps.Pairwise (fun p q => dateLt p.date q.date)) :
    (∀ i (hi : i < (result_rows A d ps).length),
      ((result_rows A d ps).get ⟨i, hi⟩).bought_stocks =
          A / ((result_rows A d ps).get ⟨i, hi⟩).close ∧
        ((result_rows A d ps).get ⟨i, hi⟩).all_stocks =
          (((result_rows A d ps).take (i + 1)).map (fun r => r.bought_stocks)).sum ∧
        ((result_rows A d ps).get ⟨i, hi⟩).total_worth =
          ((result_rows A d ps).get ⟨i, hi⟩).all_stocks *
            ((result_rows A d ps).get ⟨i, hi⟩).close) ∧
    (∀ i (hi1 : i < (result_rows A d ps).length)
        (hi2 : i + 1 < (result_rows A d ps).length),
      ((result_rows A d ps).get ⟨i + 1, hi2⟩).all_stocks =
          ((result_rows A d ps).get ⟨i, hi1⟩).all_stocks +
            A / ((result_rows A d ps).get ⟨i + 1, hi2⟩).close ∧
        ((result_rows A d ps).get ⟨i, hi1⟩).all_stocks <
          ((result_rows A d ps).get ⟨i + 1, hi2⟩).all_stocks) ∧
    (∀ hne : result_rows A d ps ≠ [],
      get_total_worth? (result_rows A d ps) =
        some (((result_rows A d ps).getLast hne).total_worth)) := by
  unfold result_rows
  have hlen : (resultRowsGo A d 0 none ps).length = ps.length := resultRowsGo_length A d 0 none ps
  refine ⟨?_, ?_, ?_⟩
  · intro i hi
    have hips : i < ps.length := by rw [← hlen]; exact hi
    obtain ⟨hc, hd2, hb, ha, ht⟩ := resultRowsGo_get A d 0 none ps i hips hi
    refine ⟨by rw [hb, hc], ?_, ht⟩
    have hmb : ((resultRowsGo A d 0 none ps).take (i + 1)).map (fun r => r.bought_stocks) =
        (ps.take (i + 1)).map (fun p => A / p.close) := by
      rw [List.map_take, resultRowsGo_map_bought, ← List.map_take]
    rw [hmb, ha, zero_add]
  · intro i hi1 hi2
    have hips1 : i < ps.length := by rw [← hlen]; exact hi1
    have hips2 : i + 1 < ps.length := by rw [← hlen]; exact hi2
    obtain ⟨hc1, _, _, ha1, _⟩ := resultRowsGo_get A d 0 none ps i hips1 hi1
    obtain ⟨hc2, _, _, ha2, _⟩ := resultRowsGo_get A d 0 none ps (i + 1) hips2 hi2
    have hsum := take_map_sum_succ (fun p => A / p.close) ps (i + 1) hips2
    have hstep : ((resultRowsGo A d 0 none ps).get ⟨i + 1, hi2⟩).all_stocks =
        ((resultRowsGo A d 0 none ps).get ⟨i, hi1⟩).all_stocks +
          A / ((resultRowsGo A d 0 none ps).get ⟨i + 1, hi2⟩).close := by
      rw [ha1, ha2, hc2, hsum]
      ring
    have hposc : 0 < A / ((resultRowsGo A d 0 none ps).get ⟨i + 1, hi2⟩).close := by
      rw [hc2]
      exact div_pos hA (hpos _ (List.get_mem ps _ hips2))
    constructor
    · exact hstep
    · rw [hstep]
      linarith
  · intro hne
    have hrows : (resultRowsGo A d 0 none ps).Pairwise (fun a b => dateLe a.date b.date) :=
      (result_rows_pairwise hsort).imp (fun h => dateLt_le h)
    exact get_total_worth?_sorted hrows hne

/-- C1: for every price series with positive close prices, sorted
chronologically, and every valid config (positive invest amount), each
result row of the engine satisfies bought_stocks = invest_amount / close
and all_stocks = the running sum of bought_stocks up to and including
that row, all_stocks strictly increases by exactly invest_amount / close
at each row, each row's total_worth = all_stocks * close, and the scalar
total worth returned by the engine equals the total_worth of the
chronologically last row after sorting by date. -/
theorem claim_C1 (A : ℚ) (d : Nat) (p1 p2 : Date) (raw : List PricePoint)
    (hpos : ∀ p ∈ raw, 0 < p.close) (hA : 0 < A)
    (hsort : raw.Pairwise (fun p q => dateLt p.date q.date)) :
    (∀ i (hi : i < (saving_result A d p1 p2 raw).length),
      ((saving_result A d p1 p2 raw).get ⟨i, hi⟩).bought_stocks =
          A / ((saving_result A d p1 p2 raw).get ⟨i, hi⟩).close ∧
        ((saving_result A d p1 p2 raw).get ⟨i, hi⟩).all_stocks =
          (((saving_result A d p1 p2 raw).take (i + 1)).map (fun r => r.bought_stocks)).sum ∧
        ((saving_result A d p1 p2 raw).get ⟨i, hi⟩).total_worth =
          ((saving_result A d p1 p2 raw).get ⟨i, hi⟩).all_stocks *
            ((saving_result A d p1 p2 raw).get ⟨i, hi⟩).close) ∧
    (∀ i (hi1 : i < (saving_result A d p1 p2 raw).length)
        (hi2 : i + 1 < (saving_result A d p1 p2 raw).length),
      ((saving_result A d p1 p2 raw).get ⟨i + 1, hi2⟩).all_stocks =
          ((saving_result A d p1 p2 raw).get ⟨i, hi1⟩).all_stocks +
            A / ((saving_result A d p1 p2 raw).get ⟨i + 1, hi2⟩).close ∧
        ((saving_result A d p1 p2 raw).get ⟨i, hi1⟩).all_stocks <
          ((saving_result A d p1 p2 raw).get ⟨i + 1, hi2⟩).all_stocks) ∧
    (∀ hne : saving_result A d p1 p2 raw ≠ [],
      total_worth_scalar A d p1 p2 raw =
        some (((saving_result A d p1 p2 raw).getLast hne).total_worth)) := by
  have hsub : (get_filtered_df d
      (drop_last_month_if_needed d p2 (filterPeriod p1 p2 raw))).Sublist raw :=
    ((get_filtered_sublist _ _).trans (drop_last_sublist _ _ _)).trans
      (filterPeriod_sublist _ _ _)
  exact result_rows_spec A d _ (fun p hp => hpos p (hsub.subset hp)) hA
    (List.Pairwise.sublist hsub hsort)

/-- Witness for C1 at a concrete two-month series. -/
theorem claim_C1_witness :
    (∀ p ∈ ([⟨⟨2021, 1, 2⟩, 10⟩, ⟨⟨2021, 2, 3⟩, 20⟩] : List PricePoint), 0 < p.close) ∧
      (0 : ℚ) < 100 ∧
      total_worth_scalar 100 1 ⟨2021, 1, 1⟩ ⟨2021, 2, 28⟩
          [⟨⟨2021, 1, 2⟩, 10⟩, ⟨⟨2021, 2, 3⟩, 20⟩] =
        some (((saving_result 100 1 ⟨2021, 1, 1⟩ ⟨2021, 2, 28⟩
          [⟨⟨2021, 1, 2⟩, 10⟩, ⟨⟨2021, 2, 3⟩, 20⟩]).getLast (by decide)).total_worth) :=
  ⟨by decide, by decide,
    (claim_C1 100 1 ⟨2021, 1, 1⟩ ⟨2021, 2, 28⟩ [⟨⟨2021, 1, 2⟩, 10⟩, ⟨⟨2021, 2, 3⟩, 20⟩]
      (by decide) (by decide) (by decide)).2.2 (by decide)⟩

/-- C2: for a frame with pairwise distinct dates, if the target day d is
present as an actual trading day of a month group, the Investment Day
Selector picks exactly that date: the point with diff = 0 is in the
filtered output and it is the only output row of its (year, month)
group. -/
theorem claim_C2 (d : Nat) (df : List PricePoint) (x : PricePoint)
    (hnd : df.Pairwise (fun p q => p.date ≠ q.date))
    (hx : x ∈ df) (hd : x.date.day = d) :
    x ∈ get_filtered_df d df ∧ get_diff d x = 0 ∧
      ∀ z ∈ get_filtered_df d df,
        z.date.year = x.date.year → z.date.month = x.date.month → z = x := by
  have hxin := filtered_mem_of_day_eq hx hd
  refine ⟨hxin, by unfold get_diff; omega, ?_⟩
  intro z hz hzy hzm
  exact filtered_unique hnd hz hxin hzy hzm

/-- Witness for C2: a series with the 5th present in each month. -/
theorem claim_C2_witness :
    (⟨⟨2021, 1, 5⟩, 10⟩ : PricePoint) ∈
        get_filtered_df 5 [⟨⟨2021, 1, 5⟩, 10⟩, ⟨⟨2021, 1, 7⟩, 12⟩, ⟨⟨2021, 2, 5⟩, 20⟩] ∧
      get_diff 5 (⟨⟨2021, 1, 5⟩, 10⟩ : PricePoint) = 0 :=
  ⟨(claim_C2 5 [⟨⟨2021, 1, 5⟩, 10⟩, ⟨⟨2021, 1, 7⟩, 12⟩, ⟨⟨2021, 2, 5⟩, 20⟩]
      ⟨⟨2021, 1, 5⟩, 10⟩ (by decide) (by decide) (by decide)).1,
    (claim_C2 5 [⟨⟨2021, 1, 5⟩, 10⟩, ⟨⟨2021, 1, 7⟩, 12⟩, ⟨⟨2021, 2, 5⟩, 20⟩]
      ⟨⟨2021, 1, 5⟩, 10⟩ (by decide) (by decide) (by decide)).2.1⟩

/-- C3: for a frame with pairwise distinct dates and a month group whose
maximum day-of-month is at most the target day d, the Selector retains
only points with diff ≤ 0 and picks the last available trading day of
that month (and of no other month of the group). -/
theorem claim_C3 (d : Nat) (df : List PricePoint) (x : PricePoint)
    (hnd : df.Pairwise (fun p q => p.date ≠ q.date))
    (hx : x ∈ df)
    (hled : groupMaxDay df x.date.year x.date.month ≤ d) :
    ∃ w ∈ get_filtered_df d df,
      w.date.year = x.date.year ∧ w.date.month = x.date.month ∧
        w.date.day = groupMaxDay df x.date.year x.date.month ∧
        ∀ z ∈ get_filtered_df d df,
          z.date.year = x.date.year → z.date.month = x.date.month →
            z = w ∧ get_diff d z ≤ 0 := by
  obtain ⟨w, hw, hwy, hwm, hwd⟩ := filtered_last_day hx hled
  refine ⟨w, hw, hwy, hwm, hwd, ?_⟩
  intro z hz hzy hzm
  have hzw : z = w := filtered_unique hnd hz hw (by rw [hzy, hwy]) (by rw [hzm, hwm])
  subst hzw
  refine ⟨rfl, ?_⟩
  have hzd : z.date.day = groupMaxDay df x.date.year x.date.month := hwd
  unfold get_diff
  omega

/-- Witness for C3: target day 31 against a 28-day February. -/
theorem claim_C3_witness :
    groupMaxDay [⟨⟨2021, 2, 26⟩, 10⟩, ⟨⟨2021, 2, 28⟩, 20⟩]
        (⟨⟨2021, 2, 26⟩, 10⟩ : PricePoint).date.year
        (⟨⟨2021, 2, 26⟩, 10⟩ : PricePoint).date.month ≤ 31 ∧
      ∃ w ∈ get_filtered_df 31 [⟨⟨2021, 2, 26⟩, 10⟩, ⟨⟨2021, 2, 28⟩, 20⟩],
        w.date.year = 2021 ∧ w.date.month = 2 ∧ w.date.day = 28 := by
  refine ⟨by decide, ?_⟩
  obtain ⟨w, hw, hwy, hwm, hwd, _⟩ :=
    claim_C3 31 [⟨⟨2021, 2, 26⟩, 10⟩, ⟨⟨2021, 2, 28⟩, 20⟩] ⟨⟨2021, 2, 26⟩, 10⟩
      (by decide) (by decide) (by decide)
  refine ⟨w, hw, hwy, hwm, ?_⟩
  rw [hwd]
  decide

/-- C8: for a frame with pairwise distinct dates (hence pairwise
distinct days-of-month inside every month group), the diff computation
and the Selector's branch-plus-minimum-absolute-diff filter retain
exactly one row per non-empty (year, month) group: one selected row
exists and any output row of the same group equals it, so the selection
never keeps more than one candidate (with distinct days no unresolvable
tie can arise). -/
theorem claim_C8 (d : Nat) (df : List PricePoint) (x : PricePoint)
    (hnd : df.Pairwise (fun p q => p.date ≠ q.date)) (hx : x ∈ df) :
    ∃ w ∈ get_filtered_df d df,
      (w.date.year = x.date.year ∧ w.date.month = x.date.month) ∧
        ∀ z ∈ get_filtered_df d df,
          z.date.year = x.date.year → z.date.month = x.date.month → z = w := by
  obtain ⟨w, hw, hwy, hwm⟩ := filtered_exists_of_group hx
  refine ⟨w, hw, ⟨hwy, hwm⟩, ?_⟩
  intro z hz hzy hzm
  exact filtered_unique hnd hz hw (by rw [hzy, hwy]) (by rw [hzm, hwm])

/-- Witness for C8 on a three-day month group. -/
theorem claim_C8_witness :
    ∃ w ∈ get_filtered_df 10
        [⟨⟨2021, 3, 2⟩, 10⟩, ⟨⟨2021, 3, 12⟩, 12⟩, ⟨⟨2021, 3, 20⟩, 20⟩],
      (w.date.year = 2021 ∧ w.date.month = 3) ∧
        ∀ z ∈ get_filtered_df 10
            [⟨⟨2021, 3, 2⟩, 10⟩, ⟨⟨2021, 3, 12⟩, 12⟩, ⟨⟨2021, 3, 20⟩, 20⟩],
          z.date.year = 2021 → z.date.month = 3 → z = w :=
  claim_C8 10 [⟨⟨2021, 3, 2⟩, 10⟩, ⟨⟨2021, 3, 12⟩, 12⟩, ⟨⟨2021, 3, 20⟩, 20⟩]
    ⟨⟨2021, 3, 2⟩, 10⟩ (by decide) (by decide)

theorem ym_le_of_dateLe {a b : Date} (h : dateLe a b) :
    a.year < b.year ∨ (a.year = b.year ∧ a.month ≤ b.month) := by
  unfold dateLe at h; omega

theorem day_le_of_dateLe_same_ym {a b : Date} (h : dateLe a b) (hy : a.year = b.year)
    (hm : a.month = b.month) : a.day ≤ b.day := by
  unfold dateLe at h; omega

/-- C4: if the target day exceeds the day-of-month of the latest date of
the period-filtered frame and that date's month is the period's ending
month, then the boundary trimming drops exactly the rows of the ending
(year, month) group, leaving every other month group untouched, and no
purchase row of the result belongs to that group. -/
theorem claim_C4 (A : ℚ) (d : Nat) (p1 p2 : Date) (raw : List PricePoint) (md : Date)
    (hmd : maxDate? (filterPeriod p1 p2 raw) = some md)
    (hm : md.month = p2.month) (hy : md.year = p2.year) (hd : md.day < d) :
    drop_last_month_if_needed d p2 (filterPeriod p1 p2 raw) =
      (filterPeriod p1 p2 raw).filter
        (fun x => !((x.date.month == p2.month) && (x.date.year == p2.year))) ∧
      ∀ r ∈ saving_result A d p1 p2 raw,
        ¬(r.date.month = p2.month ∧ r.date.year = p2.year) := by
  have heq : drop_last_month_if_needed d p2 (filterPeriod p1 p2 raw) =
      (filterPeriod p1 p2 raw).filter
        (fun x => !((x.date.month == p2.month) && (x.date.year == p2.year))) := by
    unfold drop_last_month_if_needed
    rw [hmd]
    apply List.filter_congr
    intro a _
    simp [hd, Bool.and_assoc]
  refine ⟨heq, ?_⟩
  intro r hr
  have hrd : r.date ∈ (get_filtered_df d
      (drop_last_month_if_needed d p2 (filterPeriod p1 p2 raw))).map (fun p => p.date) := by
    rw [← resultRowsGo_map_date A d 0 none]
    exact List.mem_map_of_mem _ hr
  obtain ⟨z, hz, hzd⟩ := List.mem_map.mp hrd
  have hzP : z ∈ drop_last_month_if_needed d p2 (filterPeriod p1 p2 raw) :=
    (get_filtered_sublist _ _).subset hz
  rw [heq] at hzP
  obtain ⟨_, hcond⟩ := List.mem_filter.mp hzP
  intro hcontra
  rw [← hzd] at hcontra
  simp [hcontra.1, hcontra.2] at hcond

/-- Witness for C4: period ending 2021-02-28, last trading day
2021-02-26, target day 28. -/
theorem claim_C4_witness :
    maxDate? (filterPeriod ⟨2021, 1, 1⟩ ⟨2021, 2, 28⟩
        [⟨⟨2021, 1, 10⟩, 10⟩, ⟨⟨2021, 2, 26⟩, 20⟩]) = some ⟨2021, 2, 26⟩ ∧
      drop_last_month_if_needed 28 ⟨2021, 2, 28⟩
          (filterPeriod ⟨2021, 1, 1⟩ ⟨2021, 2, 28⟩
            [⟨⟨2021, 1, 10⟩, 10⟩, ⟨⟨2021, 2, 26⟩, 20⟩]) =
        (filterPeriod ⟨2021, 1, 1⟩ ⟨2021, 2, 28⟩
            [⟨⟨2021, 1, 10⟩, 10⟩, ⟨⟨2021, 2, 26⟩, 20⟩]).filter
          (fun x => !((x.date.month == (⟨2021, 2, 28⟩ : Date).month) &&
            (x.date.year == (⟨2021, 2, 28⟩ : Date).year))) :=
  ⟨by decide,
    (claim_C4 100 28 ⟨2021, 1, 1⟩ ⟨2021, 2, 28⟩
      [⟨⟨2021, 1, 10⟩, 10⟩, ⟨⟨2021, 2, 26⟩, 20⟩] ⟨2021, 2, 26⟩
      (by decide) (by decide) (by decide) (by decide)).1⟩

/-- C10: the engine never drops the first month of the filtered range:
with the first-month trimming commented out in the source, for every
chronologically sorted series and explicit period whose first available
trading day's day-of-month exceeds the target day, the first point of
the filtered frame is selected (it is the earliest trading day of the
starting month), it is the unique output row of its month group, and it
contributes a purchase row to the result. -/
theorem claim_C10 (A : ℚ) (d : Nat) (p1 p2 : Date) (raw : List PricePoint)
    (hsort : raw.Pairwise (fun p q => dateLt p.date q.date))
    (f : PricePoint) (fs : List PricePoint)
    (hF : filterPeriod p1 p2 raw = f :: fs)
    (hfd : d < f.date.day) :
    f ∈ get_filtered_df d (drop_last_month_if_needed d p2 (filterPeriod p1 p2 raw)) ∧
      (∀ z ∈ get_filtered_df d (drop_last_month_if_needed d p2 (filterPeriod p1 p2 raw)),
        z.date.year = f.date.year → z.date.month = f.date.month → z = f) ∧
      (∃ r ∈ saving_result A d p1 p2 raw, r.date = f.date) := by
  have hFsort : (filterPeriod p1 p2 raw).Pairwise (fun p q => dateLt p.date q.date) :=
    List.Pairwise.sublist (filterPeriod_sublist p1 p2 raw) hsort
  have hfF : f ∈ filterPeriod p1 p2 raw := by rw [hF]; exact List.mem_cons_self _ _
  have hhead : ∀ q ∈ filterPeriod p1 p2 raw, dateLe f.date q.date := by
    intro q hq
    rw [hF] at hq
    rw [hF, List.pairwise_cons] at hFsort
    rcases List.mem_cons.mp hq with h1 | h2
    · rw [h1]; exact dateLe_refl _
    · exact dateLt_le (hFsort.1 q h2)
  obtain ⟨md, hmd⟩ := maxDate?_isSome (show filterPeriod p1 p2 raw ≠ [] by rw [hF]; simp)
  obtain ⟨q, hqF, hqd⟩ := maxDate?_mem hmd
  have hfmd : dateLe f.date md := by rw [← hqd]; exact hhead q hqF
  have hkeep : ∀ z ∈ filterPeriod p1 p2 raw,
      z.date.year = f.date.year → z.date.month = f.date.month →
        z ∈ drop_last_month_if_needed d p2 (filterPeriod p1 p2 raw) := by
    intro z hzF hzy hzm
    unfold drop_last_month_if_needed
    rw [hmd]
    refine List.mem_filter.mpr ⟨hzF, ?_⟩
    by_cases hc : md.day < d
    · have hnp : ¬(z.date.month = p2.month ∧ z.date.year = p2.year) := by
        rintro ⟨hzp2m, hzp2y⟩
        have hzle : dateLe z.date md := maxDate?_ge hmd z hzF
        have hmdle : dateLe md p2 := by
          rw [← hqd]
          exact (mem_filterPeriod.mp hqF).2.2
        have hl1 := ym_le_of_dateLe hzle
        have hl2 := ym_le_of_dateLe hmdle
        have hmdy : md.year = z.date.year := by omega
        have hmdm : md.month = z.date.month := by omega
        have hfday : f.date.day ≤ md.day :=
          day_le_of_dateLe_same_ym hfmd (by omega) (by omega)
        omega
      simp [hc]
      exact not_and_or.mp hnp
    · simp [hc]
  have hfP : f ∈ drop_last_month_if_needed d p2 (filterPeriod p1 p2 raw) :=
    hkeep f hfF rfl rfl
  have hmin : ∀ z ∈ drop_last_month_if_needed d p2 (filterPeriod p1 p2 raw),
      z.date.year = f.date.year → z.date.month = f.date.month →
        f.date.day ≤ z.date.day := by
    intro z hzP hzy hzm
    have hzF : z ∈ filterPeriod p1 p2 raw := (drop_last_sublist _ _ _).subset hzP
    exact day_le_of_dateLe_same_ym (hhead z hzF) (by omega) (by omega)
  have hPdist : (drop_last_month_if_needed d p2 (filterPeriod p1 p2 raw)).Pairwise
      (fun p q => p.date ≠ q.date) :=
    List.Pairwise.sublist (drop_last_sublist _ _ _)
      (hFsort.imp (fun h => dateLt_ne h))
  obtain ⟨hfsel, hday⟩ := filtered_first_day hfP hmin hfd
  refine ⟨hfsel, ?_, ?_⟩
  · intro z hz hzy hzm
    have hzday := hday z hz hzy hzm
    have hzP : z ∈ drop_last_month_if_needed d p2 (filterPeriod p1 p2 raw) :=
      (get_filtered_sublist _ _).subset hz
    exact eq_of_mem_of_date_eq hPdist hzP hfP (Date.ext2 hzy hzm hzday)
  · have hfd2 : f.date ∈ (saving_result A d p1 p2 raw).map (fun r => r.date) := by
      show f.date ∈ (resultRowsGo A d 0 none _).map (fun r => r.date)
      rw [resultRowsGo_map_date]
      exact List.mem_map_of_mem _ hfsel
    obtain ⟨r, hr, hrd⟩ := List.mem_map.mp hfd2
    exact ⟨r, hr, hrd⟩

/-- Witness for C10: the filtered range starts on the 10th, target day 5. -/
theorem claim_C10_witness :
    filterPeriod ⟨2021, 1, 1⟩ ⟨2021, 2, 28⟩
        [⟨⟨2021, 1, 10⟩, 10⟩, ⟨⟨2021, 2, 3⟩, 20⟩] =
      (⟨⟨2021, 1, 10⟩, 10⟩ : PricePoint) :: [⟨⟨2021, 2, 3⟩, 20⟩] ∧
      (⟨⟨2021, 1, 10⟩, 10⟩ : PricePoint) ∈ get_filtered_df 5
        (drop_last_month_if_needed 5 ⟨2021, 2, 28⟩
          (filterPeriod ⟨2021, 1, 1⟩ ⟨2021, 2, 28⟩
            [⟨⟨2021, 1, 10⟩, 10⟩, ⟨⟨2021, 2, 3⟩, 20⟩])) :=
  ⟨by decide,
    (claim_C10 100 5 ⟨2021, 1, 1⟩ ⟨2021, 2, 28⟩
      [⟨⟨2021, 1, 10⟩, 10⟩, ⟨⟨2021, 2, 3⟩, 20⟩] (by decide) ⟨⟨2021, 1, 10⟩, 10⟩
      [⟨⟨2021, 2, 3⟩, 20⟩] (by decide) (by decide)).1⟩

theorem insertByDate_length (r : ResultRow) (l : List ResultRow) :
    (insertByDate r l).length = l.length + 1 := by
  induction l with
  | nil => rfl
  | cons x xs ih =>
    unfold insertByDate
    split
    · simp
    · simp [ih]

theorem sortByDate_length (l : List ResultRow) : (sortByDate l).length = l.length := by
  induction l with
  | nil => rfl
  | cons x xs ih =>
    show (insertByDate x (sortByDate xs)).length = xs.length + 1
    rw [insertByDate_length, ih]

theorem get_total_worth?_isSome {rows : List ResultRow} (h : rows ≠ []) :
    ∃ v, get_total_worth? rows = some v := by
  unfold get_total_worth?
  have hlen : (sortByDate rows).length = rows.length := sortByDate_length rows
  have hne : sortByDate rows ≠ [] := by
    intro hcon
    rw [hcon] at hlen
    cases rows with
    | nil => exact h rfl
    | cons a as => simp at hlen
  exact ⟨((sortByDate rows).getLast hne).total_worth,
    by rw [List.getLast?_eq_getLast _ hne]; rfl⟩

/-- C5 counterexample: with target_day = 0, outside [1, 31], the engine
returns a successful result instead of failing with a typed
InvalidConfig error: the constructor performs no validation at all. -/
theorem claim_C5_counterexample :
    get_total_worthE 100 0 (.range ⟨2021, 1, 1⟩ ⟨2021, 1, 31⟩)
      [⟨⟨2021, 1, 5⟩, 50⟩] = .ok 100 := by
  with_unfolding_all rfl

/-- C5 amended: the engine performs no validation of target_day or
invest_amount (out-of-range target days and non-positive amounts are
accepted and produce results); zero purchase rows make the total-worth
computation fail with a generic out-of-bounds indexing error, not a
typed EmptyResult; the only assertion-backed failure is a string period
different from "max", while "max" itself fails with a dtype error. -/
theorem claim_C5 :
    (∀ (raw : List PricePoint) (A : ℚ) (d : Nat) (s : String), s ≠ "max" →
      get_total_worthE A d (.str s) raw = .error .assertionError) ∧
      (∀ (raw : List PricePoint) (A : ℚ) (d : Nat) (p1 p2 : Date),
        saving_result A d p1 p2 raw = [] →
          get_total_worthE A d (.range p1 p2) raw = .error .outOfBounds) ∧
      (∀ (raw : List PricePoint) (A : ℚ) (d : Nat) (p1 p2 : Date),
        saving_result A d p1 p2 raw ≠ [] →
          ∃ v, get_total_worthE A d (.range p1 p2) raw = .ok v) ∧
      get_total_worthE 100 0 (.range ⟨2021, 1, 1⟩ ⟨2021, 1, 31⟩)
          [⟨⟨2021, 1, 5⟩, 50⟩] = .ok 100 ∧
      get_total_worthE (-5) 0 (.range ⟨2021, 1, 1⟩ ⟨2021, 1, 31⟩)
          [⟨⟨2021, 1, 5⟩, 50⟩] = .ok (-5) := by
  refine ⟨?_, ?_, ?_, by with_unfolding_all rfl, by with_unfolding_all rfl⟩
  · intro raw A d s hs
    have hinit : init_df raw (.str s) = .error .assertionError := by
      show (if s = "max" then Except.ok raw else Except.error PyError.assertionError) =
        Except.error PyError.assertionError
      rw [if_neg hs]
    unfold get_total_worthE
    rw [hinit]
    rfl
  · intro raw A d p1 p2 h
    show (match get_total_worth? (saving_result A d p1 p2 raw) with
      | none => Except.error PyError.outOfBounds
      | some v => Except.ok v) = Except.error PyError.outOfBounds
    rw [h]
    rfl
  · intro raw A d p1 p2 h
    obtain ⟨v, hv⟩ := get_total_worth?_isSome h
    refine ⟨v, ?_⟩
    show (match get_total_worth? (saving_result A d p1 p2 raw) with
      | none => Except.error PyError.outOfBounds
      | some v => Except.ok v) = Except.ok v
    rw [hv]

/-- Witness for C5 at concrete inputs for each amended conjunct. -/
theorem claim_C5_witness :
    get_total_worthE 100 1 (.str "monthly") [] = .error .assertionError ∧
      get_total_worthE 100 32 (.range ⟨2021, 1, 1⟩ ⟨2021, 1, 31⟩) [] =
        .error .outOfBounds ∧
      ∃ v, get_total_worthE 100 5 (.range ⟨2021, 1, 1⟩ ⟨2021, 1, 31⟩)
        [⟨⟨2021, 1, 5⟩, 50⟩] = .ok v :=
  ⟨claim_C5.1 [] 100 1 "monthly" (by decide),
    claim_C5.2.1 [] 100 32 ⟨2021, 1, 1⟩ ⟨2021, 1, 31⟩ (by decide),
    claim_C5.2.2.1 [⟨⟨2021, 1, 5⟩, 50⟩] 100 5 ⟨2021, 1, 1⟩ ⟨2021, 1, 31⟩ (by decide)⟩

/-- C6: with the sentinel string period "max" the constructor applies no
filtering and any other string is rejected by the assert, but actually
computing a result with period "max" fails with a dtype error, because
the source evaluates pl.lit(period[1]).dt.month() where period[1] is the
character "a" of the string "max"; the corresponding explicit full-range
period succeeds on the same data. -/
theorem claim_C6 :
    init_df [⟨⟨2021, 1, 5⟩, 50⟩] (.str "max") = .ok [⟨⟨2021, 1, 5⟩, 50⟩] ∧
      init_df [⟨⟨2021, 1, 5⟩, 50⟩] (.str "all") = .error .assertionError ∧
      get_total_worthE 100 1 (.str "max") [⟨⟨2021, 1, 5⟩, 50⟩] = .error .dtypeError ∧
      get_total_worthE 100 1 (.range ⟨2021, 1, 1⟩ ⟨2021, 1, 31⟩)
        [⟨⟨2021, 1, 5⟩, 50⟩] = .ok 100 := by
  refine ⟨rfl, rfl, rfl, by with_unfolding_all rfl⟩

/-- C9: the total_worth property is cached correctly (a second access
performs zero computations and returns the cached value), but the
result_df property recomputes get_result_df on every access: the first
access runs it twice and every later access runs it once more, instead
of returning the cached instance field; the returned values are
nevertheless identical because the computation is pure. -/
theorem claim_C9 (A : ℚ) (d : Nat) (p1 p2 : Date) (raw : List PricePoint) (v : ℚ) :
    (result_df_access (saving_result A d p1 p2 raw) initialPlanState).2.2 = 2 ∧
      (result_df_access (saving_result A d p1 p2 raw)
        (result_df_access (saving_result A d p1 p2 raw) initialPlanState).2.1).2.2 = 1 ∧
      (result_df_access (saving_result A d p1 p2 raw)
        (result_df_access (saving_result A d p1 p2 raw) initialPlanState).2.1).1 =
        (result_df_access (saving_result A d p1 p2 raw) initialPlanState).1 ∧
      (total_worth_access v initialPlanState).2.2 = 1 ∧
      (total_worth_access v (total_worth_access v initialPlanState).2.1).2.2 = 0 ∧
      (total_worth_access v (total_worth_access v initialPlanState).2.1).1 = v :=
  ⟨rfl, rfl, rfl, rfl, rfl, rfl⟩

theorem everyNth_one (l : List α) : everyNth 1 l = l := by
  induction l with
  | nil => rw [everyNth]
  | cons a rest ih =>
    rw [everyNth]
    simp only [Nat.sub_self, List.drop_zero]
    rw [ih]

theorem everyNth_sublist (step : Nat) : (l : List α) → (everyNth step l).Sublist l
  | [] => by
    rw [everyNth]
  | a :: rest => by
    rw [everyNth]
    exact List.Sublist.cons₂ a
      ((everyNth_sublist step (rest.drop (step - 1))).trans (List.drop_sublist _ _))
termination_by l => l.length
decreasing_by
  simp only [List.length_drop, List.length_cons]
  omega

theorem mem_monthsOfYear {minY minM maxY maxM y : Nat} {p : Nat × Nat} :
    p ∈ monthsOfYear minY minM maxY maxM y ↔
      p.1 = y ∧ 1 ≤ p.2 ∧ p.2 ≤ 12 ∧ ¬(y = minY ∧ p.2 < minM) ∧
        ¬(y = maxY ∧ maxM < p.2) := by
  unfold monthsOfYear
  rw [List.mem_filterMap]
  constructor
  · rintro ⟨m, hm, hf⟩
    rw [List.mem_range'_1] at hm
    split at hf
    · exact absurd hf (by simp)
    · split at hf
      · exact absurd hf (by simp)
      · cases hf
        refine ⟨rfl, by omega, by omega, by assumption, by assumption⟩
  · rintro ⟨hp1, h1, h2, h3, h4⟩
    refine ⟨p.2, by rw [List.mem_range'_1]; omega, ?_⟩
    rw [if_neg h3, if_neg h4, ← hp1]

theorem mem_allYearMonth {minY minM maxY maxM : Nat} {p : Nat × Nat} :
    p ∈ allYearMonth minY minM maxY maxM ↔
      1 ≤ p.2 ∧ p.2 ≤ 12 ∧ minY ≤ p.1 ∧ p.1 ≤ maxY ∧
        (p.1 = minY → minM ≤ p.2) ∧ (p.1 = maxY → p.2 ≤ maxM) := by
  unfold allYearMonth
  rw [List.mem_flatMap]
  constructor
  · rintro ⟨y, hy, hp⟩
    rw [List.mem_range'_1] at hy
    rw [mem_monthsOfYear] at hp
    obtain ⟨hp1, h1, h2, h3, h4⟩ := hp
    subst hp1
    constructor
    · exact h1
    constructor
    · exact h2
    omega
  · rintro ⟨h1, h2, h3, h4, h5, h6⟩
    refine ⟨p.1, by rw [List.mem_range'_1]; omega, ?_⟩
    rw [mem_monthsOfYear]
    refine ⟨rfl, h1, h2, by omega, by omega⟩

theorem nodup_allYearMonth (minY minM maxY maxM : Nat) :
    (allYearMonth minY minM maxY maxM).Nodup := by
  unfold allYearMonth
  rw [List.nodup_flatMap]
  constructor
  · intro y _
    unfold monthsOfYear
    apply List.Nodup.filterMap
    · intro a b c hac hbc
      split at hac
      · simp at hac
      · split at hac
        · simp at hac
        · split at hbc
          · simp at hbc
          · split at hbc
            · simp at hbc
            · rw [Option.mem_def] at hac hbc
              cases hac; cases hbc; rfl
    · exact List.nodup_range' 1 12
  · have hfst : ∀ y, ∀ q ∈ monthsOfYear minY minM maxY maxM y, q.1 = y := by
      intro y q hq
      exact (mem_monthsOfYear.mp hq).1
    apply List.Pairwise.imp ?_ (List.nodup_range' minY (maxY + 1 - minY))
    intro a b hab
    intro q hqa hqb
    exact hab (((hfst a q hqa).symm.trans (hfst b q hqb)))

theorem filterMap_eq_singleton {α β : Type} {l : List α} {f : α → Option β} {a0 : α} {b : β}
    (hnd : l.Nodup) (ha : a0 ∈ l) (hfa : f a0 = some b)
    (hother : ∀ a ∈ l, a ≠ a0 → f a = none) : l.filterMap f = [b] := by
  induction l with
  | nil => cases ha
  | cons x xs ih =>
    rw [List.nodup_cons] at hnd
    rcases List.mem_cons.mp ha with h1 | h2
    · subst h1
      rw [List.filterMap_cons, hfa]
      have hnil : xs.filterMap f = [] := by
        rw [List.filterMap_eq_nil_iff]
        intro a hax
        refine hother a (List.mem_cons_of_mem _ hax) ?_
        intro he
        exact hnd.1 (he ▸ hax)
      rw [hnil]
    · have hxne : x ≠ a0 := by
        intro he
        exact hnd.1 (he ▸ h2)
      rw [List.filterMap_cons, hother x (List.mem_cons_self _ _) hxne]
      exact ih hnd.2 h2 (fun a hax hane => hother a (List.mem_cons_of_mem _ hax) hane)

theorem flatMap_eq_singleton {α β : Type} {l : List α} {g : α → List β} {a0 : α} {b : β}
    (hnd : l.Nodup) (ha : a0 ∈ l) (hga : g a0 = [b])
    (hother : ∀ a ∈ l, a ≠ a0 → g a = []) : l.flatMap g = [b] := by
  induction l with
  | nil => cases ha
  | cons x xs ih =>
    rw [List.nodup_cons] at hnd
    rcases List.mem_cons.mp ha with h1 | h2
    · subst h1
      rw [List.flatMap_cons, hga]
      have hnil : xs.flatMap g = [] := by
        rw [List.flatMap_eq_nil_iff]
        intro a hax
        refine hother a (List.mem_cons_of_mem _ hax) ?_
        intro he
        exact hnd.1 (he ▸ hax)
      rw [hnil]
      rfl
    · have hxne : x ≠ a0 := by
        intro he
        exact hnd.1 (he ▸ h2)
      rw [List.flatMap_cons, hother x (List.mem_cons_self _ _) hxne]
      exact ih hnd.2 h2 (fun a hax hane => hother a (List.mem_cons_of_mem _ hax) hane)

theorem mem_time_periods_iff {df : List PricePoint} {L step : Nat} {lo hi : Date}
    (hlo : minDate? df = some lo) (hhi : maxDate? df = some hi) {w : Date × Date} :
    w ∈ get_all_possible_time_periods df L step ↔
      ∃ s e, s ∈ everyNth step (allYearMonth lo.year lo.month hi.year hi.month) ∧
        e ∈ everyNth step (allYearMonth lo.year lo.month hi.year hi.month) ∧
        12 * (L : Int) ≤ monthDist s e ∧ w = windowOf s e := by
  unfold get_all_possible_time_periods
  rw [hlo, hhi]
  rw [List.mem_flatMap]
  constructor
  · rintro ⟨s, hs, hw⟩
    rw [List.mem_filterMap] at hw
    obtain ⟨e, he, hf⟩ := hw
    split at hf
    · exact absurd hf (by simp)
    · cases hf
      exact ⟨s, e, hs, he, by omega, rfl⟩
  · rintro ⟨s, e, hs, he, hdist, hw⟩
    refine ⟨s, hs, ?_⟩
    rw [List.mem_filterMap]
    refine ⟨e, he, ?_⟩
    rw [if_neg (by omega), hw]

theorem pos_bounds_of_mem {minY minM maxY maxM : Nat} {p : Nat × Nat}
    (hm1 : 1 ≤ minM) (hm2 : minM ≤ 12) (hm3 : 1 ≤ maxM) (hm4 : maxM ≤ 12)
    (hp : p ∈ allYearMonth minY minM maxY maxM) :
    minY * 12 + minM ≤ p.1 * 12 + p.2 ∧ p.1 * 12 + p.2 ≤ maxY * 12 + maxM ∧
      (p.1 * 12 + p.2 = minY * 12 + minM → p = (minY, minM)) ∧
      (p.1 * 12 + p.2 = maxY * 12 + maxM → p = (maxY, maxM)) := by
  rw [mem_allYearMonth] at hp
  obtain ⟨py, pm⟩ := p
  simp only at hp
  obtain ⟨h1, h2, h3, h4, h5, h6⟩ := hp
  simp only [Prod.mk.injEq]
  refine ⟨by omega, by omega, by omega, by omega⟩

theorem gapt_eq {df : List PricePoint} {L step : Nat} {lo hi : Date}
    (hlo : minDate? df = some lo) (hhi : maxDate? df = some hi) :
    get_all_possible_time_periods df L step =
      (everyNth step (allYearMonth lo.year lo.month hi.year hi.month)).flatMap (fun s =>
        (everyNth step (allYearMonth lo.year lo.month hi.year hi.month)).filterMap (fun e =>
          if monthDist s e < 12 * (L : Int) then none else some (windowOf s e))) := by
  unfold get_all_possible_time_periods
  rw [hlo, hhi]

/-- C7: with data spanning the months of the min and max dates, the
period generator emits exactly the windows obtained by subsampling the
(year, month) list by every step-th entry for both starts and ends and
keeping the pairs whose month distance is at least 12 * minLengthYears
months, each window running from the first day of the start month to the
last calendar day of the end month; with step 1 and a span of exactly
12 * minLengthYears months it produces exactly the one full-range
window, and with a shorter span it produces the empty list for every
step. -/
theorem claim_C7 (df : List PricePoint) (L : Nat) (lo hi : Date)
    (hlo : minDate? df = some lo) (hhi : maxDate? df = some hi)
    (hm1 : 1 ≤ lo.month) (hm2 : lo.month ≤ 12) (hm3 : 1 ≤ hi.month) (hm4 : hi.month ≤ 12) :
    (∀ (step : Nat) (w : Date × Date), w ∈ get_all_possible_time_periods df L step ↔
      ∃ s e, s ∈ everyNth step (allYearMonth lo.year lo.month hi.year hi.month) ∧
        e ∈ everyNth step (allYearMonth lo.year lo.month hi.year hi.month) ∧
        12 * (L : Int) ≤ monthDist s e ∧ w = windowOf s e) ∧
      (monthDist (lo.year, lo.month) (hi.year, hi.month) = 12 * (L : Int) →
        get_all_possible_time_periods df L 1 =
          [windowOf (lo.year, lo.month) (hi.year, hi.month)]) ∧
      (∀ step : Nat, monthDist (lo.year, lo.month) (hi.year, hi.month) < 12 * (L : Int) →
        get_all_possible_time_periods df L step = []) := by
  obtain ⟨p0, hp0, hp0d⟩ := minDate?_mem hlo
  have hlohi : dateLe lo hi := by
    rw [← hp0d]
    exact maxDate?_ge hhi p0 hp0
  have hyy := ym_le_of_dateLe hlohi
  have hs0mem : (lo.year, lo.month) ∈ allYearMonth lo.year lo.month hi.year hi.month := by
    rw [mem_allYearMonth]
    refine ⟨hm1, hm2, le_rfl, by omega, fun _ => le_rfl, fun hy => by omega⟩
  have he0mem : (hi.year, hi.month) ∈ allYearMonth lo.year lo.month hi.year hi.month := by
    rw [mem_allYearMonth]
    refine ⟨hm3, hm4, by omega, le_rfl, fun hy => by omega, fun _ => le_rfl⟩
  refine ⟨?_, ?_, ?_⟩
  · intro step w
    exact mem_time_periods_iff hlo hhi
  · intro hspan
    rw [gapt_eq hlo hhi, everyNth_one]
    apply flatMap_eq_singleton (nodup_allYearMonth _ _ _ _) hs0mem
    · apply filterMap_eq_singleton (nodup_allYearMonth _ _ _ _) he0mem
      · rw [if_neg (by omega)]
      · intro e he hne
        have hb := pos_bounds_of_mem hm1 hm2 hm3 hm4 he
        have hne2 : e.1 * 12 + e.2 ≠ hi.year * 12 + hi.month := fun hcon => hne (hb.2.2.2 hcon)
        rw [if_pos ?_]
        unfold monthDist at hspan ⊢
        simp only at hspan ⊢
        omega
    · intro s hs hne
      rw [List.filterMap_eq_nil_iff]
      intro e he
      have hbs := pos_bounds_of_mem hm1 hm2 hm3 hm4 hs
      have hbe := pos_bounds_of_mem hm1 hm2 hm3 hm4 he
      have hne2 : s.1 * 12 + s.2 ≠ lo.year * 12 + lo.month := fun hcon => hne (hbs.2.2.1 hcon)
      rw [if_pos ?_]
      unfold monthDist at hspan ⊢
      simp only at hspan ⊢
      omega
  · intro step hspan
    rw [gapt_eq hlo hhi]
    rw [List.flatMap_eq_nil_iff]
    intro s hs
    rw [List.filterMap_eq_nil_iff]
    intro e he
    have hsa : s ∈ allYearMonth lo.year lo.month hi.year hi.month :=
      (everyNth_sublist step _).subset hs
    have hea : e ∈ allYearMonth lo.year lo.month hi.year hi.month :=
      (everyNth_sublist step _).subset he
    have hbs := pos_bounds_of_mem hm1 hm2 hm3 hm4 hsa
    have hbe := pos_bounds_of_mem hm1 hm2 hm3 hm4 hea
    rw [if_pos ?_]
    unfold monthDist at hspan ⊢
    simp only at hspan ⊢
    omega

/-- Witness for C7: a series spanning exactly one year, minimum length
one year, step one month. -/
theorem claim_C7_witness :
    minDate? [⟨⟨2000, 1, 15⟩, 10⟩, ⟨⟨2001, 1, 10⟩, 20⟩] = some ⟨2000, 1, 15⟩ ∧
      maxDate? [⟨⟨2000, 1, 15⟩, 10⟩, ⟨⟨2001, 1, 10⟩, 20⟩] = some ⟨2001, 1, 10⟩ ∧
      get_all_possible_time_periods [⟨⟨2000, 1, 15⟩, 10⟩, ⟨⟨2001, 1, 10⟩, 20⟩] 1 1 =
        [(⟨2000, 1, 1⟩, ⟨2001, 1, 31⟩)] :=
  ⟨by decide, by decide,
    (claim_C7 [⟨⟨2000, 1, 15⟩, 10⟩, ⟨⟨2001, 1, 10⟩, 20⟩] 1 ⟨2000, 1, 15⟩ ⟨2001, 1, 10⟩
      (by decide) (by decide) (by decide) (by decide) (by decide) (by decide)).2.1
      (by decide)⟩
